import Mathlib

/-
  Shallow embedding of the libcsv sources (csv_reader.h / csv_reader.cpp /
  csv_writer.h / csv_writer.cpp).  Text is modelled as List Char, C++
  size_t as Nat, long as Int.  std::string::npos is modelled by Option
  (none = npos) wherever it is used only as a not-found sentinel.
-/

namespace csv

/-- Embeds std::string::substr(pos, count): count is clamped to the
remaining length, exactly as substr clamps. -/
def substr (l : List Char) (pos count : Nat) : List Char :=
  (l.drop pos).take count

/-- Index of the first occurrence of d, none when absent.  Helper for
std::string::find_first_of with a single search character. -/
def ffo : List Char → Char → Option Nat
  | [], _ => none
  | c :: cs, d => if c = d then some 0 else (ffo cs d).map (· + 1)

/-- Embeds line.find_first_of(delimiter, pos): first occurrence at index
at least pos; none models npos. -/
def find_first_of (l : List Char) (d : Char) (pos : Nat) : Option Nat :=
  (ffo (l.drop pos) d).map (pos + ·)

namespace detail

/-- Embeds detail::shard_pos (csv_reader.cpp lines 33-37). -/
structure shard_pos where
  begin_pos : Nat
  count : Nat
deriving DecidableEq

/-- Value of begin_idx + 1 where the stored begin_idx is npos (none) at
the first iteration: npos + 1 wraps to 0 in size_t arithmetic. -/
def begOf : Option Nat → Nat
  | none => 0
  | some i => i + 1

/-- The scan loop of detail::split (csv_reader.cpp lines 47-56): n more
iterations, b is the current begin_idx (none = npos).  In the not-found
branch the source stores count = npos - begin_idx - 1, which substr
clamps to length - begin; the embedding stores the clamped value. -/
def shard_positions_go (line : List Char) (d : Char) : Nat → Option Nat → List shard_pos
  | 0, _ => []
  | n + 1, b =>
    match find_first_of line d (begOf b) with
    | some e => ⟨begOf b, e - begOf b⟩ :: shard_positions_go line d n (some e)
    | none => ⟨begOf b, line.length - begOf b⟩ :: shard_positions_go line d n none

/-- Embeds detail::split(line, delimiter, select_col) (csv_reader.cpp
lines 39-65).  Indexing shard_positions out of range is UB in the
source; the embedding totalises it with getD (claims only use in-range
selections). -/
def split (line : List Char) (d : Char) (select_col : List Nat) : List (List Char) :=
  let num_shards := line.count d + 1
  let positions := shard_positions_go line d num_shards none
  select_col.map (fun col => substr line (positions.getD col ⟨0, 0⟩).begin_pos (positions.getD col ⟨0, 0⟩).count)

/-- Embeds the two-argument detail::split overload (csv_reader.cpp lines
67-76): the identity selection 0, 1, ..., num_shards-1. -/
def split_id (line : List Char) (d : Char) : List (List Char) :=
  split line d (List.range (line.count d + 1))

/-- Embeds C strtol(str.c_str(), &end, 10) on a string without interior
null bytes: skip leading whitespace, optional sign, base-10 digits.
Returns (value, end index, range-error flag).  With no digits at all the
end pointer is reset to the start of the string (end index 0) and the
value is 0.  On overflow the value clamps to LONG_MAX / LONG_MIN and the
flag is set (errno = ERANGE). -/
def strtol_model (s : List Char) : Int × Nat × Bool :=
  let i0 := (s.takeWhile (·.isWhitespace)).length
  let rest := s.drop i0
  let signLen : Nat := match rest with
    | '-' :: _ => 1
    | '+' :: _ => 1
    | _ => 0
  let sign : Int := match rest with
    | '-' :: _ => -1
    | _ => 1
  let digits := (rest.drop signLen).takeWhile (·.isDigit)
  if digits.isEmpty then (0, 0, false)
  else
    let n : Nat := digits.foldl (fun a c => a * 10 + (c.toNat - 48)) 0
    let v : Int := sign * n
    let endIdx := i0 + signLen + digits.length
    if v < -(2 ^ 63) then (-(2 ^ 63), endIdx, true)
    else if (2 ^ 63 - 1 : Int) < v then (2 ^ 63 - 1, endIdx, true)
    else (v, endIdx, false)

/-- Twos-complement truncation of static_cast<int> from long. -/
def wrap32 (v : Int) : Int :=
  (v + 2 ^ 31) % 2 ^ 32 - 2 ^ 31

/-- Embeds detail::string_to_value(str, long&) (csv_reader.cpp lines
107-113).  erange0 models whether errno already held ERANGE on entry
(the source reads the global errno, which strtol only ever sets, never
clears).  Result: (stored value, returned success flag). -/
def string_to_value_long (s : List Char) (erange0 : Bool) : Int × Bool :=
  let r := strtol_model s
  (r.1, decide (r.2.1 = s.length) && !(erange0 || r.2.2))

/-- Embeds detail::string_to_value(str, int&) (csv_reader.cpp lines
89-96): the strtol result is truncated by static_cast<int>; the success
test is identical to the long overload. -/
def string_to_value_int (s : List Char) (erange0 : Bool) : Int × Bool :=
  let r := strtol_model s
  (wrap32 r.1, decide (r.2.1 = s.length) && !(erange0 || r.2.2))

end detail

/-- Embeds the copy-variant csv::reader state (the class the definitions
in csv_reader.cpp belong to): m_filestream is modelled by the list of
not-yet-consumed data lines (the header line already consumed by open),
m_row by its extracted field strings (m_column_values). -/
structure reader where
  remaining : List (List Char)
  delimiter : Char
  file_open : Bool
  selected_cols : List Nat
  column_names : List (List Char)
  row_values : List (List Char)
deriving DecidableEq

/-- The index-collecting loop of the bool-mask select_cols overload
(csv_reader.cpp lines 245-251): first argument is the running index i. -/
def mask_to_indices : Nat → List Bool → List Nat
  | _, [] => []
  | i, b :: bs => if b then i :: mask_to_indices (i + 1) bs else mask_to_indices (i + 1) bs

/-- Embeds reader::select_cols(std::vector<size_t>) (csv_reader.cpp
lines 210-228): all indices must be below the catalog length; on
success the stored selection is replaced by the given list. -/
def select_cols_idx (s : reader) (sel : List Nat) : Bool × reader :=
  if !s.file_open then (false, s)
  else if sel.all (fun idx => decide (idx < s.column_names.length)) then
    (true, { s with selected_cols := sel })
  else (false, s)

/-- Embeds reader::select_cols(const std::vector<bool>&) (csv_reader.cpp
lines 230-254): fails only when the mask is longer than the catalog;
otherwise the selection becomes the indices of the true mask entries. -/
def select_cols_mask (s : reader) (mask : List Bool) : Bool × reader :=
  if !s.file_open then (false, s)
  else if s.column_names.length < mask.length then (false, s)
  else (true, { s with selected_cols := mask_to_indices 0 mask })

/-- Embeds reader::parse_next_line (csv_reader.cpp lines 268-278):
getline succeeds exactly when an unread line remains; on success the
row is re-split under the stored selection. -/
def parse_next_line (s : reader) : Bool × reader :=
  match s.remaining with
  | [] => (false, s)
  | l :: rest =>
    (true, { s with remaining := rest,
                    row_values := detail.split l s.delimiter s.selected_cols })

/-- Embeds reader::next_row (csv_reader.cpp lines 183-186). -/
def next_row (s : reader) : Bool × reader :=
  parse_next_line s

namespace offs

/-- Modelled from the spec: the designated boundary character that the
offset variant parse_line_impl (declared in csv_reader.h but whose
definition is not in src/) writes over every delimiter byte so that
typed extraction can use whitespace-delimited parsing semantics. -/
def boundary : Char := ' '

/-- Embeds the offset-variant reader::row state (csv_reader.h lines
45-96): m_line with delimiters already rewritten to the boundary
character, m_column_offsets, and m_default_selected_cols. -/
structure row where
  line : List Char
  column_offsets : List Nat
  default_selected_cols : List Bool
deriving DecidableEq

/-- Modelled from the spec: detail::get_offsets (declared in
csv_reader.h line 39, definition not in src/) records the byte offset of
the start of every field of the line, in field order. -/
def get_offsets (line : List Char) (d : Char) : List Nat :=
  (detail.shard_positions_go line d (line.count d + 1) none).map detail.shard_pos.begin_pos

/-- Modelled from the spec: the offset-variant row::parse_line /
parse_line_impl (declared in csv_reader.h lines 55 and 80, definitions
not in src/) stores the raw line with every delimiter rewritten to the
boundary character, records all field start offsets, and sets the
default selection mask to all-true. -/
def parse_line (rawline : List Char) (d : Char) : row :=
  { line := rawline.map (fun c => if c = d then boundary else c)
    column_offsets := get_offsets rawline d
    default_selected_cols := List.replicate (get_offsets rawline d).length true }

/-- Formatted istream extraction of an int at a seek position (the
m_line_stream.seekg / operator>> pair of csv_reader.h lines 223-224):
skip whitespace, optional sign, base-10 digits; none when no digit is
found (the extraction fails). Out-of-range values clamp to INT_MAX /
INT_MIN with the failbit set; the clamped value is still stored. -/
def extract_int_opt (l : List Char) (pos : Nat) : Option Int :=
  let rest := (l.drop pos).dropWhile (·.isWhitespace)
  let signLen : Nat := match rest with
    | '-' :: _ => 1
    | '+' :: _ => 1
    | _ => 0
  let sign : Int := match rest with
    | '-' :: _ => -1
    | _ => 1
  let digits := (rest.drop signLen).takeWhile (·.isDigit)
  if digits.isEmpty then none
  else
    let n : Nat := digits.foldl (fun a c => a * 10 + (c.toNat - 48)) 0
    let v : Int := sign * n
    if v < -(2 ^ 31) then some (-(2 ^ 31))
    else if (2 ^ 31 - 1 : Int) < v then some (2 ^ 31 - 1)
    else some v

/-- Value stored in an int destination by a formatted extraction: a
failed extraction stores 0 (C++11 semantics). -/
def extract_int (l : List Char) (pos : Nat) : Int :=
  (extract_int_opt l pos).getD 0

/-- The skip loop of row::read_next_col (csv_reader.h lines 213-216):
advance idx past unselected positions while idx < cols.size(). -/
def skip_unsel (cols : List Bool) (idx : Nat) : Nat :=
  idx + ((cols.drop idx).takeWhile (fun b => !b)).length

/-- Embeds row::read_next_col for an int destination (csv_reader.h
lines 210-226): skip unselected positions, fail only when the index
runs off the offset table, otherwise seek and extract - returning true
regardless of whether the extraction produced a valid number.  Result:
(flag, updated idx, value stored in the destination; arg is the
prior destination value, untouched on failure). -/
def read_next_col (r : row) (cols : List Bool) (idx : Nat) (arg : Int) : Bool × Nat × Int :=
  let i := skip_unsel cols idx
  if r.column_offsets.length ≤ i then (false, i, arg)
  else (true, i + 1, extract_int r.line (r.column_offsets.getD i 0))

/-- Embeds row::read_cols with a single int destination (csv_reader.h
lines 176-197): the two size guards, then read_next_col from index 0. -/
def read_cols1 (r : row) (cols : List Bool) (a : Int) : Bool × Int :=
  if r.column_offsets.length < 1 then (false, a)
  else if cols.length ≠ r.column_offsets.length then (false, a)
  else
    let s1 := read_next_col r cols 0 a
    (s1.1, s1.2.2)

/-- Embeds row::read with a single int destination (csv_reader.h lines
170-174): read_cols under the default selection mask of the row. -/
def read1 (r : row) (a : Int) : Bool × Int :=
  read_cols1 r r.default_selected_cols a

/-- Embeds row::read_cols with two int destinations (csv_reader.h lines
176-208): guards, then read_impl chaining two read_next_col calls,
stopping at the first failure. -/
def read_cols2 (r : row) (cols : List Bool) (a b : Int) : Bool × Int × Int :=
  if r.column_offsets.length < 2 then (false, a, b)
  else if cols.length ≠ r.column_offsets.length then (false, a, b)
  else
    let s1 := read_next_col r cols 0 a
    if s1.1 then
      let s2 := read_next_col r cols s1.2.1 b
      (s2.1, s1.2.2, s2.2.2)
    else (false, s1.2.2, b)

/-- Embeds the offset-variant csv::reader state (csv_reader.h lines
42-168): m_selected_cols is a boolean mask over the catalog,
m_selected_cols_num its count of true entries; stream_eof models
m_filestream.eof(). -/
structure reader where
  remaining : List (List Char)
  delimiter : Char
  file_open : Bool
  selected_cols : List Bool
  selected_cols_num : Nat
  column_names : List (List Char)
  current_row : row
  stream_eof : Bool
deriving DecidableEq

/-- Embeds std::find over the column names (reader::select_next_col,
csv_reader.h line 308): index of the first name equal to the argument. -/
def find_idx (names : List (List Char)) (n : List Char) : Option Nat :=
  match names with
  | [] => none
  | m :: ms => if m = n then some 0 else (find_idx ms n).map (· + 1)

/-- The select_cols_impl / select_next_col chain (csv_reader.h lines
288-316): process the names left to right, marking the catalog index of each
found name in the mask, stopping (mask kept as already updated) at the first
name not present in the catalog. -/
def sel_impl (names : List (List Char)) (mask : List Bool) : List (List Char) → Bool × List Bool
  | [] => (true, mask)
  | n :: ns =>
    match find_idx names n with
    | none => (false, mask)
    | some i => sel_impl names (mask.set i true) ns

/-- Embeds the variadic reader::select_cols(const Args&...) of the
offset variant (csv_reader.h lines 272-286) applied to a list of column
names: the stored mask is first cleared to all-false, the names are
processed by select_cols_impl, and m_selected_cols_num is recomputed
from the (possibly partially updated) mask even when the call fails. -/
def select_cols_names (s : reader) (names : List (List Char)) : Bool × reader :=
  if !s.file_open then (false, s)
  else
    let mask0 := List.replicate s.selected_cols.length false
    let res := sel_impl s.column_names mask0 names
    (res.1, { s with selected_cols := res.2, selected_cols_num := res.2.count true })

/-- Modelled from the spec: the offset-variant reader::open /
read_header (declared in csv_reader.h lines 105 and 157, definitions
not in src/) builds the catalog from the header line via the line
splitter and initialises the default selection to all columns. -/
def open_reader (lines : List (List Char)) (d : Char) : Option reader :=
  match lines with
  | [] => none
  | h :: rest =>
    let names := detail.split_id h d
    some { remaining := rest
           delimiter := d
           file_open := true
           selected_cols := List.replicate names.length true
           selected_cols_num := names.length
           column_names := names
           current_row := ⟨[], [], []⟩
           stream_eof := false }

/-- Modelled from the spec: the offset-variant reader::parse_next_line
(declared in csv_reader.h line 158, definition not in src/) reads the
next line and hands it to row::parse_line; a failed getline sets eof. -/
def parse_next_line (s : reader) : Bool × reader :=
  match s.remaining with
  | [] => (false, { s with stream_eof := true })
  | l :: rest =>
    (true, { s with remaining := rest, current_row := parse_line l s.delimiter })

/-- Embeds reader::read_row with two int destinations (csv_reader.h
lines 251-270): arity against m_selected_cols_num, the open/eof guard,
parse_next_line, then row::read_cols under the mask stored in the reader. -/
def read_row2 (s : reader) (a b : Int) : Bool × reader × Int × Int :=
  if s.selected_cols_num ≠ 2 then (false, s, a, b)
  else if !s.file_open || s.stream_eof then (false, s, a, b)
  else
    let p := parse_next_line s
    if !p.1 then (false, p.2, a, b)
    else
      let r := read_cols2 p.2.current_row p.2.selected_cols a b
      (r.1, p.2, r.2.1, r.2.2)

/-- The end-to-end scenario of the spec run against the offset-variant
reader in csv_reader.h: source with header a,b,c and one data row
1,2,3, variadic select_cols on the names c and a, then read_row into two int
destinations (initially 0). Result: (overall flag, x, y). -/
def c1_run : Bool × Int × Int :=
  match open_reader ["a,b,c".toList, "1,2,3".toList] ',' with
  | none => (false, 0, 0)
  | some r0 =>
    let s := select_cols_names r0 [['c'], ['a']]
    if !s.1 then (false, 0, 0)
    else
      let rr := read_row2 s.2 0 0
      (rr.1, rr.2.2.1, rr.2.2.2)

end offs

/-- Embeds the csv::writer state (csv_writer.h lines 35-122): outText is
the byte sequence written to m_filestream so far; row arguments are
modelled by their formatted text (operator<< output). -/
structure writer where
  file_open : Bool
  delimiter : Char
  header_written : Bool
  column_names : List (List Char)
  outText : List Char
deriving DecidableEq

/-- Embeds writer::write_header (csv_writer.cpp lines 71-80): the names
joined by the literal comma character (not m_delimiter), then
std::endl.  The source indexes m_column_names[0] unguarded (UB on an
empty catalog); write_row only calls it with a non-empty catalog, and
intercalate in the embedding yields the same text for non-empty names. -/
def write_header (w : writer) : writer :=
  { w with outText := w.outText ++ List.intercalate [','] w.column_names ++ ['\n']
           header_written := true }

/-- Embeds writer::write_row (csv_writer.h lines 166-188): fail when
closed or no column names; write the header first if not yet written
(even when the arity check that follows fails); on arity match append
the arguments joined by the literal comma character plus std::endl. -/
def write_row (w : writer) (args : List (List Char)) : Bool × writer :=
  if !w.file_open || w.column_names.isEmpty then (false, w)
  else
    let w1 := if !w.header_written then write_header w else w
    if args.length ≠ w.column_names.length then (false, w1)
    else (true, { w1 with outText := w1.outText ++ List.intercalate [','] args ++ ['\n'] })

/-- A sequence of write_row calls, collecting the flag of each call. -/
def run_writes (w : writer) : List (List (List Char)) → List Bool × writer
  | [] => ([], w)
  | r :: rs =>
    let s1 := write_row w r
    let s2 := run_writes s1.2 rs
    (s1.1 :: s2.1, s2.2)

/-- Structural reference form of splitting a line at a delimiter, used
as the specification the scan loop of detail::split is proved against. -/
def chunks (d : Char) : List Char → List (List Char)
  | [] => [[]]
  | c :: cs =>
    let r := chunks d cs
    if c = d then [] :: r else (c :: r.headD []) :: r.tail

theorem chunks_ne_nil (d : Char) (l : List Char) : chunks d l ≠ [] := by
  cases l with
  | nil => simp [chunks]
  | cons c cs =>
    simp only [chunks]
    split <;> simp

theorem chunks_no_delim (d : Char) (l : List Char) (h : l.count d = 0) :
    chunks d l = [l] := by
  induction l with
  | nil => rfl
  | cons c cs ih =>
    rw [List.count_cons] at h
    have hc : ¬ c = d := by
      intro hcd
      simp [hcd] at h
    have h0 : cs.count d = 0 := by
      omega
    simp [chunks, hc, ih h0]

theorem chunks_append (d : Char) (pre suf : List Char) (h : pre.count d = 0) :
    chunks d (pre ++ d :: suf) = pre :: chunks d suf := by
  induction pre with
  | nil => simp [chunks]
  | cons p ps ih =>
    rw [List.count_cons] at h
    have hp : ¬ p = d := by
      intro hpd
      simp [hpd] at h
    have h0 : ps.count d = 0 := by
      omega
    simp [chunks, hp, ih h0]

theorem chunks_length (d : Char) (l : List Char) :
    (chunks d l).length = l.count d + 1 := by
  induction l with
  | nil => rfl
  | cons c cs ih =>
    obtain ⟨f, fs, hf⟩ : ∃ f fs, chunks d cs = f :: fs := by
      cases hcc : chunks d cs with
      | nil => exact absurd hcc (chunks_ne_nil d cs)
      | cons f fs => exact ⟨f, fs, rfl⟩
    by_cases hc : c = d <;>
      simp [chunks, hc, hf, List.count_cons] at ih ⊢ <;> omega

theorem chunks_sum (d : Char) (l : List Char) :
    ((chunks d l).map List.length).sum + l.count d = l.length := by
  induction l with
  | nil => rfl
  | cons c cs ih =>
    obtain ⟨f, fs, hf⟩ : ∃ f fs, chunks d cs = f :: fs := by
      cases hcc : chunks d cs with
      | nil => exact absurd hcc (chunks_ne_nil d cs)
      | cons f fs => exact ⟨f, fs, rfl⟩
    by_cases hc : c = d <;>
      simp [chunks, hc, hf, List.count_cons] at ih ⊢ <;> omega

theorem ffo_eq_none (l : List Char) (d : Char) :
    ffo l d = none ↔ l.count d = 0 := by
  induction l with
  | nil => simp [ffo]
  | cons c cs ih =>
    by_cases hc : c = d <;> simp [ffo, hc, List.count_cons, ih]

theorem ffo_eq_some (l : List Char) (d : Char) (i : Nat) (h : ffo l d = some i) :
    ∃ pre suf, l = pre ++ d :: suf ∧ pre.length = i ∧ pre.count d = 0 := by
  induction l generalizing i with
  | nil => simp [ffo] at h
  | cons c cs ih =>
    by_cases hc : c = d
    · simp [ffo, hc] at h
      exact ⟨[], cs, by simp [hc], by simp [← h], by simp⟩
    · simp [ffo, hc] at h
      obtain ⟨j, hj, hij⟩ := h
      obtain ⟨pre, suf, hl, hlen, hcnt⟩ := ih j hj
      exact ⟨c :: pre, suf, by simp [hl], by simp [hlen, ← hij], by simp [List.count_cons, hcnt, hc]⟩

theorem go_length (line : List Char) (d : Char) (n : Nat) (b : Option Nat) :
    (detail.shard_positions_go line d n b).length = n := by
  induction n generalizing b with
  | zero => rfl
  | succ n ih =>
    simp only [detail.shard_positions_go]
    split <;> simp [ih]

theorem go_eq_some (line : List Char) (d : Char) (n : Nat) (b : Option Nat) (e : Nat)
    (h : find_first_of line d (detail.begOf b) = some e) :
    detail.shard_positions_go line d (n + 1) b
      = ⟨detail.begOf b, e - detail.begOf b⟩ :: detail.shard_positions_go line d n (some e) := by
  simp only [detail.shard_positions_go, h]

theorem go_map_substr (line : List Char) (d : Char) (n : Nat) (b : Option Nat)
    (hb : detail.begOf b ≤ line.length)
    (hc : (line.drop (detail.begOf b)).count d = n) :
    (detail.shard_positions_go line d (n + 1) b).map
        (fun p => substr line p.begin_pos p.count)
      = chunks d (line.drop (detail.begOf b)) := by
  induction n generalizing b with
  | zero =>
    have hffo : ffo (line.drop (detail.begOf b)) d = none := (ffo_eq_none _ d).mpr hc
    have hfind : find_first_of line d (detail.begOf b) = none := by
      simp [find_first_of, hffo]
    simp only [detail.shard_positions_go, hfind]
    have htake : substr line (detail.begOf b) (line.length - detail.begOf b)
        = line.drop (detail.begOf b) := by
      simp [substr, List.take_of_length_le, List.length_drop]
    simp [htake, chunks_no_delim d _ hc]
  | succ n ih =>
    have hffo : ffo (line.drop (detail.begOf b)) d ≠ none := by
      rw [Ne, ffo_eq_none, hc]
      omega
    obtain ⟨j, hj⟩ : ∃ j, ffo (line.drop (detail.begOf b)) d = some j := by
      cases hf : ffo (line.drop (detail.begOf b)) d with
      | none => exact absurd hf hffo
      | some j => exact ⟨j, rfl⟩
    obtain ⟨pre, suf, hsplit, hlen, hpre⟩ := ffo_eq_some _ d j hj
    have hfind : find_first_of line d (detail.begOf b) = some (detail.begOf b + j) := by
      simp [find_first_of, hj]
    have hdroplen : line.length - detail.begOf b = j + 1 + suf.length := by
      have h0 := congrArg List.length hsplit
      rw [List.length_drop] at h0
      simp [hlen] at h0
      omega
    have hble : detail.begOf b + j + 1 ≤ line.length := by
      omega
    have hdrop2 : line.drop (detail.begOf b + j + 1) = suf := by
      have h1 : (line.drop (detail.begOf b)).drop (j + 1)
          = line.drop (detail.begOf b + j + 1) := by
        rw [List.drop_drop, ← Nat.add_assoc]
      rw [← h1, hsplit]
      have h2 : pre ++ d :: suf = (pre ++ [d]) ++ suf := by simp
      rw [h2, List.drop_left' (by simp [hlen])]
    have hcsuf : suf.count d = n := by
      rw [hsplit] at hc
      simp [List.count_append, List.count_cons, hpre] at hc
      omega
    have hsubpre : substr line (detail.begOf b) (detail.begOf b + j - detail.begOf b) = pre := by
      have h3 : detail.begOf b + j - detail.begOf b = j := by omega
      rw [h3]
      simp only [substr, hsplit]
      exact List.take_left' hlen
    have hbs : detail.begOf (some (detail.begOf b + j)) = detail.begOf b + j + 1 := rfl
    have hih := ih (some (detail.begOf b + j))
      (by rw [hbs]; exact hble)
      (by rw [hbs, hdrop2]; exact hcsuf)
    rw [hbs, hdrop2] at hih
    rw [go_eq_some line d (n + 1) b (detail.begOf b + j) hfind]
    rw [List.map_cons, hsubpre, hsplit, chunks_append d pre suf hpre, hih]

theorem getD_map_of_lt {α β : Type} (ps : List α) (g : α → β) (c : Nat)
    (h : c < ps.length) (d1 : α) (d2 : β) :
    (ps.map g).getD c d2 = g (ps.getD c d1) := by
  simp [List.getD_eq_getElem?_getD, List.getElem?_map, List.getElem?_eq_getElem h]

theorem range_map_getD {α : Type} (ps : List detail.shard_pos) (g : detail.shard_pos → α)
    (n : Nat) (hn : ps.length = n) :
    (List.range n).map (fun c => g (ps.getD c ⟨0, 0⟩)) = ps.map g := by
  subst hn
  apply List.ext_getElem
  · simp
  · intro i h1 h2
    simp only [List.getElem_map, List.getElem_range]
    have hi : i < ps.length := by simpa using h2
    simp [List.getD_eq_getElem?_getD, List.getElem?_eq_getElem hi]

theorem split_id_eq_map (line : List Char) (d : Char) :
    detail.split_id line d
      = (detail.shard_positions_go line d (line.count d + 1) none).map
          (fun p => substr line p.begin_pos p.count) := by
  simp only [detail.split_id, detail.split]
  exact range_map_getD (detail.shard_positions_go line d (line.count d + 1) none)
    (fun p => substr line p.begin_pos p.count) (line.count d + 1)
    (go_length line d (line.count d + 1) none)

theorem split_id_eq_chunks (line : List Char) (d : Char) :
    detail.split_id line d = chunks d line := by
  rw [split_id_eq_map]
  have := go_map_substr line d (line.count d) none (by simp [detail.begOf]) (by simp [detail.begOf])
  simpa [detail.begOf] using this

/-- Claim C2: for every line containing k occurrences of the delimiter,
detail::split under the identity selection produces exactly k + 1
fields, the sum of the byte lengths of the fields plus k equals the
byte length of the line, and a line with zero delimiters yields exactly
one field equal to the whole line. -/
theorem claim2_split_counts (line : List Char) (d : Char) :
    (detail.split_id line d).length = line.count d + 1 ∧
    ((detail.split_id line d).map List.length).sum + line.count d = line.length ∧
    (line.count d = 0 → detail.split_id line d = [line]) := by
  rw [split_id_eq_chunks]
  exact ⟨chunks_length d line, chunks_sum d line, fun h => chunks_no_delim d line h⟩

/-- Instantiation of claim C2 at concrete lines, its inner zero-delimiter
implication discharged. -/
theorem claim2_split_counts_witness :
    ((detail.split_id "a,b,c".toList ',').length = 3 ∧
     ((detail.split_id "a,b,c".toList ',').map List.length).sum + 2 = 5) ∧
    ("ab".toList.count ',' = 0 ∧ detail.split_id "ab".toList ',' = ["ab".toList]) :=
  ⟨⟨(claim2_split_counts "a,b,c".toList ',').1, (claim2_split_counts "a,b,c".toList ',').2.1⟩,
   by decide, (claim2_split_counts "ab".toList ',').2.2 (by decide)⟩

/-- Claim C8: for every line and every index-list selection whose
indices are all valid, the copy-variant split materialises the
extracted field strings in exactly the order and multiplicity of the
selection: element c of the selection yields the c-th field of the
identity split. -/
theorem claim8_split_selection_order (line : List Char) (d : Char) (sel : List Nat)
    (h : ∀ c ∈ sel, c < line.count d + 1) :
    detail.split line d sel = sel.map (fun c => (detail.split_id line d).getD c []) := by
  simp only [detail.split]
  rw [split_id_eq_map]
  apply List.map_congr_left
  intro c hc
  have hclt : c < (detail.shard_positions_go line d (line.count d + 1) none).length := by
    rw [go_length]
    exact h c hc
  rw [getD_map_of_lt _ _ c hclt ⟨0, 0⟩ []]

/-- Instantiation of claim C8 at the selection [2,0,2] of the spec:
the fields come out as col2, col0, col2. -/
theorem claim8_split_selection_order_witness :
    (∀ c ∈ [2, 0, 2], c < "x0,y1,z2".toList.count ',' + 1) ∧
    detail.split "x0,y1,z2".toList ',' [2, 0, 2]
      = [2, 0, 2].map (fun c => (detail.split_id "x0,y1,z2".toList ',').getD c []) ∧
    detail.split "x0,y1,z2".toList ',' [2, 0, 2]
      = ["z2".toList, "x0".toList, "z2".toList] :=
  ⟨by decide, claim8_split_selection_order "x0,y1,z2".toList ',' [2, 0, 2] (by decide), by decide⟩

/-- Claim C7: on a reader whose input is exhausted, next_row returns
false and leaves the reader state unchanged, so repeated calls keep
returning false (idempotent terminal state). -/
theorem claim7_next_row_exhausted (s : reader) (h : s.remaining = []) :
    next_row s = (false, s) := by
  simp [next_row, parse_next_line, h]

/-- Instantiation of claim C7 at a concrete exhausted reader. -/
theorem claim7_next_row_exhausted_witness :
    next_row ⟨[], ',', true, [0, 1], [['a'], ['b']], [['1'], ['2']]⟩
      = (false, ⟨[], ',', true, [0, 1], [['a'], ['b']], [['1'], ['2']]⟩) :=
  claim7_next_row_exhausted _ rfl

/-- Claim C5: on an open reader, select_cols(std::vector<size_t>)
returns false and leaves the stored selection unchanged when some index
reaches the catalog length, and returns true replacing the stored
selection by exactly the given list when every index is in range. -/
theorem claim5_select_idx (s : reader) (sel : List Nat) (h : s.file_open = true) :
    ((∃ i ∈ sel, s.column_names.length ≤ i) →
       select_cols_idx s sel = (false, s)) ∧
    ((∀ i ∈ sel, i < s.column_names.length) →
       select_cols_idx s sel = (true, { s with selected_cols := sel })) := by
  constructor
  · rintro ⟨i, hi, hge⟩
    have hall : sel.all (fun idx => decide (idx < s.column_names.length)) = false := by
      rw [Bool.eq_false_iff, Ne, List.all_eq_true]
      intro hforall
      have := hforall i hi
      simp at this
      omega
    simp [select_cols_idx, h, hall]
  · intro hforall
    have hall : sel.all (fun idx => decide (idx < s.column_names.length)) = true := by
      rw [List.all_eq_true]
      intro i hi
      simpa using hforall i hi
    simp [select_cols_idx, h, hall]

/-- Instantiation of claim C5: an out-of-range index is rejected without
touching the selection, an in-range list replaces it. -/
theorem claim5_select_idx_witness :
    select_cols_idx ⟨[], ',', true, [0], [['a'], ['b']], []⟩ [1, 2]
      = (false, ⟨[], ',', true, [0], [['a'], ['b']], []⟩) ∧
    select_cols_idx ⟨[], ',', true, [0], [['a'], ['b']], []⟩ [1, 0, 1]
      = (true, ⟨[], ',', true, [1, 0, 1], [['a'], ['b']], []⟩) :=
  ⟨(claim5_select_idx ⟨[], ',', true, [0], [['a'], ['b']], []⟩ [1, 2] rfl).1
     ⟨2, by decide, by decide⟩,
   (claim5_select_idx ⟨[], ',', true, [0], [['a'], ['b']], []⟩ [1, 0, 1] rfl).2
     (by decide)⟩

theorem mem_mask_to_indices (mask : List Bool) :
    ∀ (k i : Nat), i ∈ mask_to_indices k mask
      ↔ ∃ j, j < mask.length ∧ mask.getD j false = true ∧ i = k + j := by
  induction mask with
  | nil => simp [mask_to_indices]
  | cons b bs ih =>
    intro k i
    cases b
    · simp only [mask_to_indices, Bool.false_eq_true, if_false, ih (k + 1) i,
        List.length_cons]
      constructor
      · rintro ⟨j, hj, hg, rfl⟩
        exact ⟨j + 1, by omega, by simpa using hg, by omega⟩
      · rintro ⟨j, hj, hg, rfl⟩
        cases j with
        | zero => simp at hg
        | succ j' => exact ⟨j', by omega, by simpa using hg, by omega⟩
    · simp only [mask_to_indices, if_true, List.mem_cons, ih (k + 1) i,
        List.length_cons]
      constructor
      · rintro (rfl | ⟨j, hj, hg, rfl⟩)
        · exact ⟨0, by omega, by simp, by omega⟩
        · exact ⟨j + 1, by omega, by simpa using hg, by omega⟩
      · rintro ⟨j, hj, hg, rfl⟩
        cases j with
        | zero => left; omega
        | succ j' => right; exact ⟨j', by omega, by simpa using hg, by omega⟩

/-- Claim C9: on an open reader, the bool-mask select_cols overload
returns false exactly when the mask is longer than the catalog; an
accepted mask (including one strictly shorter than the catalog)
replaces the selection by the indices of its true entries, so absent
trailing positions are unselected. -/
theorem claim9_select_mask (s : reader) (mask : List Bool) (h : s.file_open = true) :
    (select_cols_mask s mask).1 = decide (mask.length ≤ s.column_names.length) ∧
    (mask.length ≤ s.column_names.length →
      select_cols_mask s mask
        = (true, { s with selected_cols := mask_to_indices 0 mask })) ∧
    (∀ i, i ∈ mask_to_indices 0 mask
      ↔ (i < mask.length ∧ mask.getD i false = true)) := by
  refine ⟨?_, ?_, ?_⟩
  · by_cases hle : mask.length ≤ s.column_names.length
    · simp [select_cols_mask, h, Nat.not_lt.mpr hle, hle]
    · simp [select_cols_mask, h, Nat.lt_of_not_le hle, hle]
  · intro hle
    simp [select_cols_mask, h, Nat.not_lt.mpr hle]
  · intro i
    rw [mem_mask_to_indices mask 0 i]
    constructor
    · rintro ⟨j, hj, hg, rfl⟩
      simpa [hj] using hg
    · rintro ⟨hi, hg⟩
      exact ⟨i, hi, hg, by omega⟩

/-- Instantiation of claim C9: a three-entry mask on a two-column
catalog is rejected; a one-entry mask on it is accepted and selects
exactly column 0, leaving the absent position 1 unselected. -/
theorem claim9_select_mask_witness :
    (select_cols_mask ⟨[], ',', true, [0], [['a'], ['b']], []⟩ [true, true, true]).1 = false ∧
    select_cols_mask ⟨[], ',', true, [0], [['a'], ['b']], []⟩ [true]
      = (true, ⟨[], ',', true, [0], [['a'], ['b']], []⟩) ∧
    (1 ∈ mask_to_indices 0 [true] ↔ (1 < 1 ∧ [true].getD 1 false = true)) :=
  ⟨by rw [(claim9_select_mask ⟨[], ',', true, [0], [['a'], ['b']], []⟩ [true, true, true] rfl).1]; decide,
   (claim9_select_mask ⟨[], ',', true, [0], [['a'], ['b']], []⟩ [true] rfl).2.1 (by decide),
   (claim9_select_mask ⟨[], ',', true, [0], [['a'], ['b']], []⟩ [true] rfl).2.2 1⟩

/-- Counterexample to claim C3 as stated: converting the empty string
with the int overload reports success (value 0), because strtol leaves
the end pointer at the start of the string, which for an empty string
equals its end, and no range error is flagged. -/
theorem claim3_empty_string_succeeds :
    (detail.string_to_value_int "".toList false).2 = true := by decide

/-- Claim C3 as amended: for the integer conversions (int and long
overloads), with errno clear of ERANGE on entry, string_to_value
reports success exactly when the strtol end pointer equals the end of
the text and no range error was flagged - so the text 42 converts to 42 with
success, the text 42x fails on trailing garbage, and the empty text
succeeds with value 0
(the vacuous parse already sits at the end of the text). -/
theorem claim3_string_to_value (s : List Char) :
    ((detail.string_to_value_long s false).2 = true ↔
       (detail.strtol_model s).2.1 = s.length ∧ (detail.strtol_model s).2.2 = false) ∧
    ((detail.string_to_value_int s false).2 = true ↔
       (detail.strtol_model s).2.1 = s.length ∧ (detail.strtol_model s).2.2 = false) ∧
    detail.string_to_value_int "42".toList false = (42, true) ∧
    (detail.string_to_value_int "42x".toList false).2 = false ∧
    detail.string_to_value_int "".toList false = (0, true) := by
  refine ⟨?_, ?_, by decide, by decide, by decide⟩
  · rcases hr : detail.strtol_model s with ⟨v, e, er⟩
    cases er <;> simp [detail.string_to_value_long, hr]
  · rcases hr : detail.strtol_model s with ⟨v, e, er⟩
    cases er <;> simp [detail.string_to_value_int, hr]

/-- Counterexample to claim C1 as stated: on the source with header
a,b,c and data row 1,2,3, after the variadic select_cols on the names c and a,
read_row(x, y) does not produce x = 3 and y = 1. -/
theorem claim1_read_order_cex :
    ¬ (offs.c1_run.1 = true ∧ offs.c1_run.2.1 = 3 ∧ offs.c1_run.2.2 = 1) := by decide

/-- Claim C1 as amended: in the end-to-end scenario (header a,b,c, data
row 1,2,3, variadic select_cols on the names c and a, read_row(x, y)), the call
returns true with x = 1 and y = 3: the variadic selection stores a
boolean mask over the catalog, so the fields are read back in catalog
order, not in the order the names were passed. -/
theorem claim1_read_order : offs.c1_run = (true, 1, 3) := by decide

/-- Claim C4: for the offset-variant row, a sequential typed read
(read_cols with an int destination) of an in-range selected field whose
text does not parse as a number still reports success, storing the
zero default in the destination instead of signalling the failure. -/
theorem claim4_silent_conversion (r : offs.row) (cols : List Bool) (a : Int)
    (h1 : cols.length = r.column_offsets.length)
    (h2 : offs.skip_unsel cols 0 < r.column_offsets.length)
    (h3 : offs.extract_int_opt r.line
            (r.column_offsets.getD (offs.skip_unsel cols 0) 0) = none) :
    offs.read_cols1 r cols a = (true, 0) := by
  have hpos : ¬ r.column_offsets.length < 1 := by omega
  simp only [offs.read_cols1, offs.read_next_col, offs.extract_int]
  rw [if_neg hpos, if_neg (fun hh => hh h1), if_neg (Nat.not_le.mpr h2), h3]
  rfl

/-- Instantiation of claim C4 at the row parsed from 5,abc with the
second field selected: the text abc is not a number, yet the read
succeeds and stores 0. -/
theorem claim4_silent_conversion_witness :
    ([false, true].length
        = (offs.parse_line "5,abc".toList ',').column_offsets.length ∧
     offs.skip_unsel [false, true] 0
        < (offs.parse_line "5,abc".toList ',').column_offsets.length ∧
     offs.extract_int_opt (offs.parse_line "5,abc".toList ',').line
        ((offs.parse_line "5,abc".toList ',').column_offsets.getD
          (offs.skip_unsel [false, true] 0) 0) = none) ∧
    offs.read_cols1 (offs.parse_line "5,abc".toList ',') [false, true] 9 = (true, 0) :=
  ⟨⟨by decide, by decide, by decide⟩,
   claim4_silent_conversion (offs.parse_line "5,abc".toList ',') [false, true] 9
     (by decide) (by decide) (by decide)⟩

theorem run_writes_written (rows : List (List (List Char))) : ∀ (w : writer),
    w.file_open = true → w.column_names ≠ [] → w.header_written = true →
    (∀ r ∈ rows, r.length = w.column_names.length) →
    run_writes w rows
      = (List.replicate rows.length true,
         { w with outText := w.outText
             ++ (rows.map (fun r => List.intercalate [','] r ++ ['\n'])).flatten }) := by
  induction rows with
  | nil => intro w h1 h2 h3 h4; simp [run_writes]
  | cons r rs ih =>
    intro w h1 h2 h3 h4
    have hwr : write_row w r
        = (true, { w with outText := w.outText ++ List.intercalate [','] r ++ ['\n'] }) := by
      simp [write_row, h1, h3, List.isEmpty_eq_false.mpr h2, h4 r (by simp)]
    simp only [run_writes]
    rw [hwr]
    rw [ih { w with outText := w.outText ++ List.intercalate [','] r ++ ['\n'] }
      h1 h2 h3 (fun q hq => h4 q (by simp [hq]))]
    simp [List.append_assoc, List.replicate_succ]

/-- Counterexample to claim C6 as stated: a writer opened with
delimiter semicolon and columns a, b accepts a two-argument write_row call, but
the produced output is not the semicolon-joined header and row the
claim requires (the source joins with the literal comma character). -/
theorem claim6_delimiter_cex :
    (write_row ⟨true, ';', false, [['a'], ['b']], []⟩ [['1'], ['2']]).1 = true ∧
    ¬ ((write_row ⟨true, ';', false, [['a'], ['b']], []⟩ [['1'], ['2']]).2.outText
        = (List.intercalate [';'] [['a'], ['b']] ++ ['\n'])
          ++ (List.intercalate [';'] [['1'], ['2']] ++ ['\n'])) := by decide

/-- Claim C6 as amended: for every writer opened with any delimiter and
a non-empty set of column names, a non-empty sequence of write_row
calls of matching arity all succeed and produce exactly a header line
of the column names joined by the comma character, then one line per
call with its fields joined by the comma character, each line
newline-terminated with no trailing separator before the newline - the
configured delimiter is stored but not used for joining, and the header
appears only once the first row is written. -/
theorem claim6_writer_output (d : Char) (names : List (List Char))
    (rows : List (List (List Char))) (hne : names ≠ [])
    (hrows : ∀ r ∈ rows, r.length = names.length) (hnz : rows ≠ []) :
    run_writes ⟨true, d, false, names, []⟩ rows
      = (List.replicate rows.length true,
         ⟨true, d, true, names,
          (List.intercalate [','] names ++ ['\n'])
            ++ (rows.map (fun r => List.intercalate [','] r ++ ['\n'])).flatten⟩) := by
  obtain ⟨r, rs, rfl⟩ := List.exists_cons_of_ne_nil hnz
  have hw1 : write_row ⟨true, d, false, names, []⟩ r
      = (true, ⟨true, d, true, names,
          (List.intercalate [','] names ++ ['\n']) ++ (List.intercalate [','] r ++ ['\n'])⟩) := by
    simp [write_row, write_header, List.isEmpty_eq_false.mpr hne, hrows r (by simp)]
  simp only [run_writes]
  rw [hw1]
  rw [run_writes_written rs _ rfl hne rfl (fun q hq => hrows q (by simp [hq]))]
  simp [List.append_assoc, List.replicate_succ]

/-- Instantiation of claim C6 (amended) at a concrete writer with
delimiter semicolon, columns a and b and one row. -/
theorem claim6_writer_output_witness :
    run_writes ⟨true, ';', false, [['a'], ['b']], []⟩ [[['1'], ['2']]]
      = ([true],
         ⟨true, ';', true, [['a'], ['b']], "a,b\n1,2\n".toList⟩) := by
  rw [claim6_writer_output ';' [['a'], ['b']] [[['1'], ['2']]]
    (by decide) (by decide) (by decide)]
  decide

/-- Claim C10: on an open writer with non-empty column names whose
header has not yet been written, a write_row call whose argument count
differs from the number of column names still writes the header line
before returning false: the failed call leaves the header emitted but
appends no row line. -/
theorem claim10_header_on_failed_arity (w : writer) (args : List (List Char))
    (hopen : w.file_open = true) (hne : w.column_names ≠ [])
    (hw : w.header_written = false) (har : args.length ≠ w.column_names.length) :
    write_row w args = (false, write_header w) ∧
    (write_header w).outText
      = w.outText ++ List.intercalate [','] w.column_names ++ ['\n'] ∧
    (write_header w).header_written = true := by
  refine ⟨?_, rfl, rfl⟩
  simp [write_row, hopen, hw, har, List.isEmpty_eq_false.mpr hne]

/-- Instantiation of claim C10: a one-argument write_row against a
two-column writer emits the header, returns false and writes no row. -/
theorem claim10_header_on_failed_arity_witness :
    write_row ⟨true, ',', false, [['a'], ['b']], []⟩ [['1']]
      = (false, write_header ⟨true, ',', false, [['a'], ['b']], []⟩) ∧
    (write_header ⟨true, ',', false, [['a'], ['b']], []⟩).outText
      = [] ++ List.intercalate [','] [['a'], ['b']] ++ ['\n'] ∧
    (write_header ⟨true, ',', false, [['a'], ['b']], []⟩).header_written = true :=
  claim10_header_on_failed_arity ⟨true, ',', false, [['a'], ['b']], []⟩ [['1']]
    rfl (by decide) rfl (by decide)

end csv
